import Mathlib

/-!
# Verification of the loan-default preprocessing pipeline

A shallow embedding of `src/data/preprocess.py` (as stored in
`notebooks/01_exploratory_data_analysis.ipynb`): `load_data`,
`handle_outliers` and `preprocess_data`, together with spec-modelled
versions of the third-party splitter (`train_test_split`) and scaler
(`StandardScaler`) that the pipeline calls but whose sources are not part
of the repository.

A `Dataset` (pandas `DataFrame`) is an ordered association list from
column name to the list of that column's values; all values are modelled
as rationals (exact arithmetic in place of Python floats).
-/

open List

/-! ## Definitions -/

/-- A column of numeric values (Python floats modelled as exact rationals). -/
abbrev Col := List ℚ

/-- A pandas `DataFrame`: an ordered association list from column name to the
list of that column's values. -/
abbrev Dataset := List (String × Col)

/-- First column with the given name, as pandas `df[col]` reads it. -/
def lookupCol (data : Dataset) (c : String) : Option Col :=
  (data.find? (fun p => p.1 = c)).map Prod.snd

/-- Linear interpolation into the sorted list `s` at fractional position `pos`
(indices clipped to `m`, the last valid index): `s[i] + (pos - i) * (s[min
(i+1) m] - s[i])` with `i = ⌊pos⌋`. -/
def interp (s : List ℚ) (m : ℕ) (pos : ℚ) : ℚ :=
  s.getD (⌊pos⌋).toNat 0 + (pos - (((⌊pos⌋).toNat : ℕ) : ℚ)) *
    (s.getD (min ((⌊pos⌋).toNat + 1) m) 0 - s.getD (⌊pos⌋).toNat 0)

/-- Pandas `Series.quantile(q)` with the default linear interpolation: on the
sorted values of the column, interpolate at position `pos = q * (n - 1)`.
The empty column (where pandas yields NaN) is mapped to 0; no claim
depends on that value. -/
def quantile (xs : List ℚ) (q : ℚ) : ℚ :=
  if xs.length = 0 then 0
  else interp (List.insertionSort (· ≤ ·) xs) (xs.length - 1)
    (q * ((xs.length - 1 : ℕ) : ℚ))

/-- The per-column body of `handle_outliers` for `method='iqr'`: compute `Q1`,
`Q3`, `IQR`, and cap every value with `np.where(x < lower, lower,
np.where(x > upper, upper, x))`. -/
def capColumn (xs : Col) (threshold : ℚ) : Col :=
  let Q1 := quantile xs (1/4)
  let Q3 := quantile xs (3/4)
  let IQR := Q3 - Q1
  let lower_bound := Q1 - threshold * IQR
  let upper_bound := Q3 + threshold * IQR
  xs.map (fun v => if v < lower_bound then lower_bound
    else if v > upper_bound then upper_bound else v)

/-- Python `handle_outliers(data, columns, method, threshold)`: start from a
copy of `data` and, for each listed column, if the method is `'iqr'`,
replace that column by its IQR-capped version.  Any other method leaves
the running copy untouched (the `if method == 'iqr'` guard has no `else`). -/
def handle_outliers (data : Dataset) (columns : List String)
    (method : String) (threshold : ℚ) : Dataset :=
  columns.foldl
    (fun data_clean col =>
      if method = "iqr" then
        data_clean.map (fun p =>
          if p.1 = col then (p.1, capColumn p.2 threshold) else p)
      else data_clean)
    data

/-- The transformation `handle_outliers` applies to one column entry: the fold
of the loop body over the listed column names. -/
def capEntry (cols : List String) (method : String) (k : ℚ)
    (p : String × Col) : String × Col :=
  cols.foldl
    (fun p col =>
      if method = "iqr" then
        (if p.1 = col then (p.1, capColumn p.2 k) else p)
      else p)
    p

/-- The row indices of label class `c`. -/
def classIdx (y : List ℚ) (c : ℚ) : List ℕ :=
  (List.range y.length).filter (fun i => y.getD i 0 = c)

/-- Modelled from the spec: the seed-determined permutation the splitter
applies to the indices of one label class before taking the held-out
fraction (a rotation by an amount derived from the seed). -/
def classShuffled (y : List ℚ) (seed : ℕ) (c : ℚ) : List ℕ :=
  (classIdx y c).rotate (seed % ((classIdx y c).length + 1))

/-- Modelled from the spec: how many rows of one label class go to the test
subset (the held-out fraction of the class size). -/
def classTestCount (y : List ℚ) (test_size : ℚ) (c : ℚ) : ℕ :=
  (⌊test_size * (((classIdx y c).length : ℕ) : ℚ)⌋).toNat

/-- Modelled from the spec: the repository calls sklearn's
`train_test_split(X, y, test_size=…, random_state=…,
stratify=y)`; the splitter's implementation is not part of the repository.
Per the spec (§4.3) it is a label-stratified, seed-deterministic
partition: the row indices of each label class are permuted by a
permutation determined by the seed, and the held-out fraction of each
class is taken as the test part, the rest as the train part. -/
def classParts (y : List ℚ) (test_size : ℚ) (seed : ℕ) :
    List (List ℕ × List ℕ) :=
  y.dedup.map (fun c =>
    ((classShuffled y seed c).drop (classTestCount y test_size c),
     (classShuffled y seed c).take (classTestCount y test_size c)))

/-- Modelled from the spec: the (train, test) row-index partition the splitter
produces, concatenating the per-class parts. -/
def splitIndices (y : List ℚ) (test_size : ℚ) (seed : ℕ) :
    List ℕ × List ℕ :=
  (((classParts y test_size seed).map Prod.fst).flatten,
   ((classParts y test_size seed).map Prod.snd).flatten)

/-- Modelled from the spec: sklearn's `train_test_split(X, y, test_size,
random_state, stratify=y)` — gather the feature rows and labels at
the train and test indices. -/
def train_test_split (X : List (List ℚ)) (y : List ℚ) (test_size : ℚ)
    (seed : ℕ) : List (List ℚ) × List (List ℚ) × List ℚ × List ℚ :=
  ((splitIndices y test_size seed).1.map (fun i => X.getD i []),
   (splitIndices y test_size seed).2.map (fun i => X.getD i []),
   (splitIndices y test_size seed).1.map (fun i => y.getD i 0),
   (splitIndices y test_size seed).2.map (fun i => y.getD i 0))

/-- Arithmetic mean of a rational column (0 for the empty column, whose length
divides as zero). -/
def listMean (xs : List ℚ) : ℚ := xs.sum / (xs.length : ℚ)

/-- Population variance of a rational column (sklearn's `ddof = 0`). -/
def listVar (xs : List ℚ) : ℚ :=
  ((xs.map (fun x => (x - listMean xs) ^ 2)).sum) / (xs.length : ℚ)

/-- Column `j` of a row-major matrix (missing entries read as 0). -/
def matColumn (m : List (List ℚ)) (j : ℕ) : List ℚ :=
  m.map (fun r => r.getD j 0)

/-- Number of features of a row-major matrix: the width of its first row. -/
def nFeatures (m : List (List ℚ)) : ℕ := (m.headD []).length

/-- Modelled from the spec: sklearn's `StandardScaler` state — per-
feature mean and variance, absent before `fit` (§4.4).  The standard
deviation used by `transform` is the real square root of the stored
variance. -/
structure StandardScaler where
  fitted : Option (List ℚ × List ℚ)

/-- The per-feature means of a matrix. -/
def fitMeans (m : List (List ℚ)) : List ℚ :=
  (List.range (nFeatures m)).map (fun j => listMean (matColumn m j))

/-- The per-feature variances of a matrix. -/
def fitVars (m : List (List ℚ)) : List ℚ :=
  (List.range (nFeatures m)).map (fun j => listVar (matColumn m j))

/-- Modelled from the spec: `fit` computes the per-feature mean/std state from
the given (training) matrix only. -/
def StandardScaler.fit (m : List (List ℚ)) : StandardScaler :=
  ⟨some (fitMeans m, fitVars m)⟩

/-- Modelled from the spec: the elementwise standardization `(x - mean) / std`
with `std = sqrt(variance)`, applied to every row of a matrix. -/
noncomputable def scaleWith (mean_ var_ : List ℚ) (m : List (List ℚ)) :
    List (List ℝ) :=
  m.map (fun r => (List.range mean_.length).map (fun j =>
    (((r.getD j 0 : ℚ) : ℝ) - ((mean_.getD j 0 : ℚ) : ℝ))
      / Real.sqrt ((var_.getD j 0 : ℚ) : ℝ)))

/-- Modelled from the spec: `transform` must reject calls before `fit`
(sklearn raises `NotFittedError`); on a fitted scaler it returns the
standardized matrix together with the unchanged scaler state. -/
noncomputable def StandardScaler.transform (sc : StandardScaler)
    (m : List (List ℚ)) : Except String (List (List ℝ) × StandardScaler) :=
  match sc.fitted with
  | none => Except.error "NotFittedError"
  | some mv => Except.ok (scaleWith mv.1 mv.2 m, sc)

/-- The feature table of `preprocess_data`: `X =
data.drop(columns=[target_col, 'customer_id'])`. -/
def featureCols (data : Dataset) (target_col : String) : Dataset :=
  data.filter (fun p => ¬(p.1 = target_col ∨ p.1 = "customer_id"))

/-- The label vector `y = data[target_col]` (empty if the column is absent). -/
def targetVec (data : Dataset) (target_col : String) : Col :=
  (lookupCol data target_col).getD []

/-- Python `X = handle_outliers(X, numerical_cols)`: the code passes every
numeric feature column; in this all-numeric embedding that is every
feature column, with the default method `'iqr'` and threshold `1.5`. -/
def cappedCols (data : Dataset) (target_col : String) : Dataset :=
  handle_outliers (featureCols data target_col)
    ((featureCols data target_col).map Prod.fst) "iqr" (3/2)

/-- The capped feature matrix in row-major form (one row per label entry). -/
def featureRows (data : Dataset) (target_col : String) : List (List ℚ) :=
  (List.range (targetVec data target_col).length).map (fun i =>
    (cappedCols data target_col).map (fun p => p.2.getD i 0))

/-- The subset `X_train` inside `preprocess_data`. -/
def trainRows (data : Dataset) (target_col : String) (test_size : ℚ)
    (random_state : ℕ) : List (List ℚ) :=
  (train_test_split (featureRows data target_col)
    (targetVec data target_col) test_size random_state).1

/-- The subset `X_test` inside `preprocess_data`. -/
def testRows (data : Dataset) (target_col : String) (test_size : ℚ)
    (random_state : ℕ) : List (List ℚ) :=
  (train_test_split (featureRows data target_col)
    (targetVec data target_col) test_size random_state).2.1

/-- Python `preprocess_data(data, target_col, test_size, random_state)`: drop
the target and id columns, cap outliers, split stratified by the label,
fit the scaler on the training subset and standardize both subsets with
the fitted parameters.  Returns `(X_train_scaled, X_test_scaled, y_train,
y_test, scaler)`. -/
noncomputable def preprocess_data (data : Dataset) (target_col : String)
    (test_size : ℚ) (random_state : ℕ) :
    List (List ℝ) × List (List ℝ) × Col × Col × StandardScaler :=
  (scaleWith (fitMeans (trainRows data target_col test_size random_state))
      (fitVars (trainRows data target_col test_size random_state))
      (trainRows data target_col test_size random_state),
   scaleWith (fitMeans (trainRows data target_col test_size random_state))
      (fitVars (trainRows data target_col test_size random_state))
      (testRows data target_col test_size random_state),
   (train_test_split (featureRows data target_col)
      (targetVec data target_col) test_size random_state).2.2.1,
   (train_test_split (featureRows data target_col)
      (targetVec data target_col) test_size random_state).2.2.2,
   StandardScaler.fit (trainRows data target_col test_size random_state))

/-- Python `load_data(filepath)`: a single try/except around `pd.read_csv`.
The CSV reader together with the file system is abstracted as a function
from paths to either a parsed dataset or a read/parse error; the body
calls it exactly once.  On success the parsed table is returned (after an
info log); on failure the error is logged and re-raised unchanged. Logging
does not affect the returned value and is not modelled. -/
def load_data (read_csv : String → Except String Dataset)
    (filepath : String) : Except String Dataset :=
  match read_csv filepath with
  | Except.ok data => Except.ok data
  | Except.error e => Except.error e

/-- Arithmetic mean of a real column. -/
noncomputable def rMean (xs : List ℝ) : ℝ := xs.sum / (xs.length : ℝ)

/-- Population variance of a real column. -/
noncomputable def rVar (xs : List ℝ) : ℝ :=
  ((xs.map (fun x => (x - rMean xs) ^ 2)).sum) / (xs.length : ℝ)

/-- Column `j` of a real row-major matrix. -/
noncomputable def rMatColumn (m : List (List ℝ)) (j : ℕ) : List ℝ :=
  m.map (fun r => r.getD j 0)

/-! ## Lemmas and claim theorems -/

lemma sorted_getD_mono {s : List ℚ} (hs : s.Sorted (· ≤ ·)) {a b : ℕ}
    (hab : a ≤ b) (hb : b < s.length) : s.getD a 0 ≤ s.getD b 0 := by
  have ha : a < s.length := lt_of_le_of_lt hab hb
  rw [List.getD_eq_getElem _ _ ha, List.getD_eq_getElem _ _ hb]
  have h2 : (⟨a, ha⟩ : Fin s.length) ≤ ⟨b, hb⟩ := hab
  have := hs.rel_get_of_le h2
  simpa using this

lemma floor_toNat_le {pos : ℚ} {m : ℕ} (hm : pos ≤ (m : ℚ)) :
    (⌊pos⌋).toNat ≤ m := by
  have h1 : ⌊pos⌋ ≤ (m : ℤ) := by
    have := Int.floor_mono hm
    simpa using this
  omega

lemma floor_toNat_cast {pos : ℚ} (h0 : 0 ≤ pos) :
    (((⌊pos⌋).toNat : ℕ) : ℚ) = (⌊pos⌋ : ℚ) := by
  have h1 : (0 : ℤ) ≤ ⌊pos⌋ := Int.floor_nonneg.mpr h0
  have h2 : ((⌊pos⌋).toNat : ℤ) = ⌊pos⌋ := Int.toNat_of_nonneg h1
  exact_mod_cast congrArg (fun z : ℤ => (z : ℚ)) h2

lemma interp_lower {s : List ℚ} (hs : s.Sorted (· ≤ ·)) {m : ℕ}
    (hm : m < s.length) {pos : ℚ} (h0 : 0 ≤ pos) (hml : pos ≤ (m : ℚ)) :
    s.getD (⌊pos⌋).toNat 0 ≤ interp s m pos := by
  unfold interp
  have him : (⌊pos⌋).toNat ≤ m := floor_toNat_le hml
  have hij : (⌊pos⌋).toNat ≤ min ((⌊pos⌋).toNat + 1) m :=
    le_min (Nat.le_succ _) him
  have hjlt : min ((⌊pos⌋).toNat + 1) m < s.length :=
    lt_of_le_of_lt (min_le_right _ _) hm
  have hfr : 0 ≤ pos - (((⌊pos⌋).toNat : ℕ) : ℚ) := by
    rw [floor_toNat_cast h0]
    have := Int.floor_le pos
    linarith
  have hss : s.getD (⌊pos⌋).toNat 0 ≤ s.getD (min ((⌊pos⌋).toNat + 1) m) 0 :=
    sorted_getD_mono hs hij hjlt
  nlinarith [mul_nonneg hfr (sub_nonneg.mpr hss)]

lemma interp_upper {s : List ℚ} (hs : s.Sorted (· ≤ ·)) {m : ℕ}
    (hm : m < s.length) {pos : ℚ} (h0 : 0 ≤ pos) (hml : pos ≤ (m : ℚ)) :
    interp s m pos ≤ s.getD (min ((⌊pos⌋).toNat + 1) m) 0 := by
  unfold interp
  have him : (⌊pos⌋).toNat ≤ m := floor_toNat_le hml
  have hij : (⌊pos⌋).toNat ≤ min ((⌊pos⌋).toNat + 1) m :=
    le_min (Nat.le_succ _) him
  have hjlt : min ((⌊pos⌋).toNat + 1) m < s.length :=
    lt_of_le_of_lt (min_le_right _ _) hm
  have hfr : pos - (((⌊pos⌋).toNat : ℕ) : ℚ) ≤ 1 := by
    rw [floor_toNat_cast h0]
    have := Int.lt_floor_add_one pos
    push_cast at this ⊢
    linarith
  have hss : s.getD (⌊pos⌋).toNat 0 ≤ s.getD (min ((⌊pos⌋).toNat + 1) m) 0 :=
    sorted_getD_mono hs hij hjlt
  nlinarith [mul_nonneg (sub_nonneg.mpr hss) (sub_nonneg.mpr hfr)]

lemma interp_mono {s : List ℚ} (hs : s.Sorted (· ≤ ·)) {m : ℕ}
    (hm : m < s.length) {pos qos : ℚ} (h0 : 0 ≤ pos) (hle : pos ≤ qos)
    (hml : qos ≤ (m : ℚ)) : interp s m pos ≤ interp s m qos := by
  have h0q : 0 ≤ qos := le_trans h0 hle
  have hpm : pos ≤ (m : ℚ) := le_trans hle hml
  rcases Nat.lt_or_ge (⌊pos⌋).toNat (⌊qos⌋).toNat with hlt | hge
  · -- different floors: chain through the sorted entries between them
    have hql : (⌊qos⌋).toNat < s.length :=
      lt_of_le_of_lt (floor_toNat_le hml) hm
    calc interp s m pos ≤ s.getD (min ((⌊pos⌋).toNat + 1) m) 0 :=
          interp_upper hs hm h0 hpm
      _ ≤ s.getD (⌊qos⌋).toNat 0 := by
          refine sorted_getD_mono hs ?_ hql
          exact le_trans (min_le_left _ _) hlt
      _ ≤ interp s m qos := interp_lower hs hm h0q hml
  · -- equal floors: the difference is (qos - pos) * (s[j] - s[i]) ≥ 0
    have heq : (⌊pos⌋).toNat = (⌊qos⌋).toNat := by
      have := Int.floor_mono hle
      omega
    unfold interp
    rw [← heq]
    have him : (⌊pos⌋).toNat ≤ m := floor_toNat_le hpm
    have hij : (⌊pos⌋).toNat ≤ min ((⌊pos⌋).toNat + 1) m :=
      le_min (Nat.le_succ _) him
    have hjlt : min ((⌊pos⌋).toNat + 1) m < s.length :=
      lt_of_le_of_lt (min_le_right _ _) hm
    have hss : s.getD (⌊pos⌋).toNat 0 ≤ s.getD (min ((⌊pos⌋).toNat + 1) m) 0 :=
      sorted_getD_mono hs hij hjlt
    nlinarith [mul_nonneg (sub_nonneg.mpr hle) (sub_nonneg.mpr hss)]

/-- The pandas quantile is monotone in the requested probability. -/
lemma quantile_mono (xs : List ℚ) {q r : ℚ} (hq : 0 ≤ q) (hqr : q ≤ r)
    (hr : r ≤ 1) : quantile xs q ≤ quantile xs r := by
  rcases Nat.eq_zero_or_pos xs.length with h0 | hpos
  · simp [quantile, h0]
  have hne : ¬ xs.length = 0 := Nat.pos_iff_ne_zero.mp hpos
  rw [quantile, quantile, if_neg hne, if_neg hne]
  have hs : (List.insertionSort (· ≤ ·) xs).Sorted (· ≤ ·) :=
    List.sorted_insertionSort _ xs
  have hlen : (List.insertionSort (· ≤ ·) xs).length = xs.length :=
    List.length_insertionSort _ xs
  have hm : xs.length - 1 < (List.insertionSort (· ≤ ·) xs).length := by
    omega
  have hcast : (0 : ℚ) ≤ ((xs.length - 1 : ℕ) : ℚ) := Nat.cast_nonneg _
  refine interp_mono hs hm (mul_nonneg hq hcast)
    (mul_le_mul_of_nonneg_right hqr hcast) ?_
  calc r * ((xs.length - 1 : ℕ) : ℚ) ≤ 1 * ((xs.length - 1 : ℕ) : ℚ) :=
        mul_le_mul_of_nonneg_right hr hcast
    _ = ((xs.length - 1 : ℕ) : ℚ) := one_mul _

lemma quantile_q1_le_q3 (xs : List ℚ) : quantile xs (1/4) ≤ quantile xs (3/4) :=
  quantile_mono xs (by norm_num) (by norm_num) (by norm_num)

lemma capColumn_length (xs : Col) (k : ℚ) :
    (capColumn xs k).length = xs.length := by
  simp [capColumn]

/-- Every value of the capped column lies between `Q1 - k * IQR` and `Q3 + k *
IQR`. -/
lemma capColumn_bounds (xs : Col) {k : ℚ} (hk : 0 ≤ k) :
    ∀ v ∈ capColumn xs k,
      quantile xs (1/4) - k * (quantile xs (3/4) - quantile xs (1/4)) ≤ v ∧
      v ≤ quantile xs (3/4) + k * (quantile xs (3/4) - quantile xs (1/4)) := by
  intro v hv
  have hq : quantile xs (1/4) ≤ quantile xs (3/4) := quantile_q1_le_q3 xs
  have hkq : 0 ≤ k * (quantile xs (3/4) - quantile xs (1/4)) :=
    mul_nonneg hk (by linarith)
  have hcap : capColumn xs k = xs.map (fun u =>
      if u < quantile xs (1/4) - k * (quantile xs (3/4) - quantile xs (1/4))
      then quantile xs (1/4) - k * (quantile xs (3/4) - quantile xs (1/4))
      else if u > quantile xs (3/4)
            + k * (quantile xs (3/4) - quantile xs (1/4))
        then quantile xs (3/4) + k * (quantile xs (3/4) - quantile xs (1/4))
        else u) := rfl
  rw [hcap] at hv
  obtain ⟨u, hu, rfl⟩ := List.mem_map.mp hv
  split_ifs with h1 h2 <;> exact ⟨by linarith, by linarith⟩

/-- With a duplicate-free column list, `handle_outliers` with method `'iqr'`
is the pointwise map that caps exactly the listed columns. -/
lemma handle_outliers_eq_map (data : Dataset) (cols : List String) (k : ℚ)
    (hnd : cols.Nodup) :
    handle_outliers data cols "iqr" k =
      data.map (fun p => if p.1 ∈ cols then (p.1, capColumn p.2 k) else p) := by
  induction cols generalizing data with
  | nil => simp [handle_outliers]
  | cons c cs ih =>
    rcases List.nodup_cons.mp hnd with ⟨hc, hcs⟩
    have hstep : handle_outliers data (c :: cs) "iqr" k =
        handle_outliers
          (data.map (fun p => if p.1 = c then (p.1, capColumn p.2 k) else p))
          cs "iqr" k := by
      simp [handle_outliers]
    rw [hstep, ih _ hcs, List.map_map]
    apply List.map_congr_left
    intro p _
    by_cases hpc : p.1 = c
    · have h1 : (if p.1 = c then (p.1, capColumn p.2 k) else p)
          = (p.1, capColumn p.2 k) := if_pos hpc
      simp only [Function.comp_apply, h1]
      simp [hpc, hc]
    · have h1 : (if p.1 = c then (p.1, capColumn p.2 k) else p) = p :=
        if_neg hpc
      simp only [Function.comp_apply, h1]
      by_cases hmem : p.1 ∈ cs
      · simp [hmem, List.mem_cons, hpc]
      · have : p.1 ∉ c :: cs := by
          simp [List.mem_cons, hpc, hmem]
        simp [hmem, this]

/-- The function `handle_outliers` keeps every column's name and row count. -/
lemma handle_outliers_shape (data : Dataset) (cols : List String) (k : ℚ)
    (hnd : cols.Nodup) :
    (handle_outliers data cols "iqr" k).map (fun p => (p.1, p.2.length))
      = data.map (fun p => (p.1, p.2.length)) := by
  rw [handle_outliers_eq_map data cols k hnd, List.map_map]
  apply List.map_congr_left
  intro p _
  by_cases hmem : p.1 ∈ cols <;> simp [hmem, capColumn_length]

/-- Looking up a capped column after `handle_outliers`. -/
lemma lookupCol_handle_outliers (data : Dataset) (cols : List String) (k : ℚ)
    (hnd : cols.Nodup) {c : String} (hc : c ∈ cols) {xs : Col}
    (hx : lookupCol data c = some xs) :
    lookupCol (handle_outliers data cols "iqr" k) c = some (capColumn xs k) := by
  rw [handle_outliers_eq_map data cols k hnd]
  unfold lookupCol at hx ⊢
  have hkey : ((fun p : String × Col => decide (p.1 = c)) ∘
      (fun p => if p.1 ∈ cols then (p.1, capColumn p.2 k) else p))
      = (fun p : String × Col => decide (p.1 = c)) := by
    funext p
    by_cases hmem : p.1 ∈ cols <;> simp [hmem]
  obtain ⟨q, hfind, hq⟩ : ∃ q, data.find? (fun p => p.1 = c) = some q ∧
      q.2 = xs := by
    cases hfd : data.find? (fun p => p.1 = c) with
    | none => rw [hfd] at hx; simp at hx
    | some q => rw [hfd] at hx; simp at hx; exact ⟨q, rfl, hx⟩
  have hqc : q.1 = c := by
    have := List.find?_some hfind
    simpa using this
  rw [List.find?_map, hkey, hfind]
  have hqmem : q.1 ∈ cols := by rw [hqc]; exact hc
  simp [hqmem, hq]

/-- C1: with method `'iqr'` and threshold `k`, every value of every listed
column of the result of `handle_outliers` lies within `[Q1 - k*IQR, Q3 +
k*IQR]` computed from that column of the input; values outside are clamped
(the output column is exactly the clamp map `capColumn` of the input
column), and no row is removed: every column keeps its name and row count. -/
theorem C1_handle_outliers_iqr_clamps_within_bounds
    (data : Dataset) (cols : List String) (k : ℚ)
    (hk : 0 ≤ k) (hnd : cols.Nodup) :
    ((handle_outliers data cols "iqr" k).map (fun p => (p.1, p.2.length))
        = data.map (fun p => (p.1, p.2.length)))
    ∧ ∀ c ∈ cols, ∀ xs : Col, lookupCol data c = some xs →
        lookupCol (handle_outliers data cols "iqr" k) c
            = some (capColumn xs k)
        ∧ ∀ v ∈ capColumn xs k,
            quantile xs (1/4) - k * (quantile xs (3/4) - quantile xs (1/4))
              ≤ v
            ∧ v ≤ quantile xs (3/4)
                + k * (quantile xs (3/4) - quantile xs (1/4)) := by
  refine ⟨handle_outliers_shape data cols k hnd, ?_⟩
  intro c hc xs hx
  exact ⟨lookupCol_handle_outliers data cols k hnd hc hx,
    capColumn_bounds xs hk⟩

/-- Witness for C1 at the concrete column `[1, 2, 3, 4, 100]`, `k = 3/2`. -/
theorem C1_handle_outliers_iqr_clamps_within_bounds_witness :
    ((handle_outliers [("x", [1, 2, 3, 4, 100])] ["x"] "iqr" (3/2)).map
        (fun p => (p.1, p.2.length))
        = ([("x", [1, 2, 3, 4, 100])] : Dataset).map
            (fun p => (p.1, p.2.length)))
    ∧ ∀ c ∈ ["x"], ∀ xs : Col,
        lookupCol [("x", [1, 2, 3, 4, 100])] c = some xs →
        lookupCol (handle_outliers [("x", [1, 2, 3, 4, 100])] ["x"] "iqr"
            (3/2)) c = some (capColumn xs (3/2))
        ∧ ∀ v ∈ capColumn xs (3/2),
            quantile xs (1/4) - (3/2) * (quantile xs (3/4)
                - quantile xs (1/4)) ≤ v
            ∧ v ≤ quantile xs (3/4)
                + (3/2) * (quantile xs (3/4) - quantile xs (1/4)) :=
  C1_handle_outliers_iqr_clamps_within_bounds
    [("x", [1, 2, 3, 4, 100])] ["x"] (3/2) (by norm_num) (by simp)

lemma capEntry_nil (method : String) (k : ℚ) (p : String × Col) :
    capEntry [] method k p = p := rfl

lemma capEntry_cons (c : String) (cs : List String) (method : String)
    (k : ℚ) (p : String × Col) :
    capEntry (c :: cs) method k p =
      capEntry cs method k
        (if method = "iqr" then
          (if p.1 = c then (p.1, capColumn p.2 k) else p)
        else p) := rfl

lemma handle_outliers_eq_map_entry (data : Dataset) (cols : List String)
    (method : String) (k : ℚ) :
    handle_outliers data cols method k = data.map (capEntry cols method k) := by
  induction cols generalizing data with
  | nil =>
    show data = _
    rw [show capEntry [] method k = id from funext (capEntry_nil method k)]
    exact (List.map_id data).symm
  | cons c cs ih =>
    by_cases hm : method = "iqr"
    · have hstep : handle_outliers data (c :: cs) method k =
          handle_outliers
            (data.map (fun p =>
              if p.1 = c then (p.1, capColumn p.2 k) else p))
            cs method k := by
        simp [handle_outliers, hm]
      rw [hstep, ih, List.map_map]
      apply List.map_congr_left
      intro p _
      simp only [Function.comp_apply]
      rw [capEntry_cons, if_pos hm]
    · have hstep : handle_outliers data (c :: cs) method k =
          handle_outliers data cs method k := by
        simp [handle_outliers, hm]
      rw [hstep, ih]
      apply List.map_congr_left
      intro p _
      rw [capEntry_cons, if_neg hm]

lemma capEntry_fst (cols : List String) (method : String) (k : ℚ)
    (p : String × Col) : (capEntry cols method k p).1 = p.1 := by
  induction cols generalizing p with
  | nil => rfl
  | cons c cs ih =>
    rw [capEntry_cons]
    by_cases hm : method = "iqr"
    · rw [if_pos hm]
      by_cases hpc : p.1 = c
      · rw [if_pos hpc, ih]
      · rw [if_neg hpc, ih]
    · rw [if_neg hm, ih]

lemma capEntry_not_mem (cols : List String) (method : String) (k : ℚ)
    {p : String × Col} (hp : p.1 ∉ cols) : capEntry cols method k p = p := by
  induction cols with
  | nil => rfl
  | cons c cs ih =>
    have hpc : p.1 ≠ c := fun h => hp (by rw [h]; exact List.mem_cons_self c cs)
    have hcs : p.1 ∉ cs := fun h => hp (List.mem_cons_of_mem c h)
    rw [capEntry_cons]
    by_cases hm : method = "iqr"
    · rw [if_pos hm, if_neg hpc, ih hcs]
    · rw [if_neg hm, ih hcs]

/-- C9: `handle_outliers` never mutates its input (the embedding is a pure
function of the input dataset: the Python code operates on `data.copy()`),
and in the returned table every entry keeps its column name and every
column whose name is not in the given column list is identical to the
corresponding input column. -/
theorem C9_handle_outliers_preserves_unlisted_columns
    (data : Dataset) (cols : List String) (method : String) (k : ℚ) :
    List.Forall₂
      (fun p q : String × Col => p.1 = q.1 ∧ (p.1 ∉ cols → p = q))
      data (handle_outliers data cols method k) := by
  rw [handle_outliers_eq_map_entry]
  rw [List.forall₂_map_right_iff]
  refine List.forall₂_same.mpr ?_
  intro p _
  exact ⟨(capEntry_fst cols method k p).symm,
    fun hp => (capEntry_not_mem cols method k hp).symm⟩

/-- C10: any method other than `'iqr'` makes `handle_outliers` return the
(unmodified copy of the) input: no clamping, no error. -/
theorem C10_handle_outliers_other_method_is_identity
    (data : Dataset) (cols : List String) (method : String) (k : ℚ)
    (hm : method ≠ "iqr") :
    handle_outliers data cols method k = data := by
  rw [handle_outliers_eq_map_entry]
  have hcap : ∀ p : String × Col, capEntry cols method k p = p := by
    intro p
    induction cols with
    | nil => rfl
    | cons c cs ih => rw [capEntry_cons, if_neg hm, ih]
  calc data.map (capEntry cols method k) = data.map id := by
        apply List.map_congr_left
        intro p _
        exact hcap p
    _ = data := List.map_id data

/-- Witness for C10 with the method string `'zscore'`. -/
theorem C10_handle_outliers_other_method_is_identity_witness :
    handle_outliers [("x", [1, 2, 3, 4, 100])] ["x"] "zscore" (3/2)
      = [("x", [1, 2, 3, 4, 100])] :=
  C10_handle_outliers_other_method_is_identity
    [("x", [1, 2, 3, 4, 100])] ["x"] "zscore" (3/2) (by decide)

lemma flatten_fst_append_flatten_snd_perm {α : Type}
    (ps : List (List α × List α)) :
    ((ps.map Prod.fst).flatten ++ (ps.map Prod.snd).flatten).Perm
      ((ps.map (fun p => p.1 ++ p.2)).flatten) := by
  induction ps with
  | nil => simp
  | cons a ps ih =>
    simp only [List.map_cons, List.flatten_cons]
    calc (a.1 ++ (ps.map Prod.fst).flatten)
          ++ (a.2 ++ (ps.map Prod.snd).flatten)
        = a.1 ++ (((ps.map Prod.fst).flatten ++ a.2)
            ++ (ps.map Prod.snd).flatten) := by
          simp [List.append_assoc]
      _ ~ a.1 ++ ((a.2 ++ (ps.map Prod.fst).flatten)
            ++ (ps.map Prod.snd).flatten) :=
          List.Perm.append_left a.1
            (List.Perm.append_right _ List.perm_append_comm)
      _ = (a.1 ++ a.2) ++ ((ps.map Prod.fst).flatten
            ++ (ps.map Prod.snd).flatten) := by
          simp [List.append_assoc]
      _ ~ (a.1 ++ a.2) ++ (ps.map (fun p => p.1 ++ p.2)).flatten :=
          List.Perm.append_left _ ih

lemma flatten_perm_of_forall₂ {α : Type} {l₁ l₂ : List (List α)}
    (h : List.Forall₂ (· ~ ·) l₁ l₂) : l₁.flatten.Perm l₂.flatten := by
  induction h with
  | nil => simp
  | cons ha _ ih =>
    simp only [List.flatten_cons]
    exact ha.append ih

lemma flatten_filter_classes_perm {α β : Type} [DecidableEq β]
    (key : α → β) :
    ∀ (classes : List β) (l : List α), classes.Nodup →
      (∀ x ∈ l, key x ∈ classes) →
      ((classes.map (fun c => l.filter (fun x => key x = c))).flatten).Perm
        l := by
  intro classes
  induction classes with
  | nil =>
    intro l _ hcov
    have hl : l = [] := by
      cases l with
      | nil => rfl
      | cons a t => exact absurd (hcov a (by simp)) (by simp)
    simp [hl]
  | cons c cs ih =>
    intro l hnd hcov
    rcases List.nodup_cons.mp hnd with ⟨hc, hcs⟩
    simp only [List.map_cons, List.flatten_cons]
    have hstep : ∀ c' ∈ cs, l.filter (fun x => key x = c')
        = (l.filter (fun x => !(decide (key x = c)))).filter
            (fun x => key x = c') := by
      intro c' hmem
      have hne : c' ≠ c := fun h => hc (h ▸ hmem)
      rw [List.filter_filter]
      apply List.filter_congr
      intro x _
      by_cases hx : key x = c'
      · have hxc : ¬ key x = c := fun h => hne (hx ▸ h ▸ rfl)
        simp [hx, hxc, hne]
      · simp [hx]
    have hmapeq : cs.map (fun c' => l.filter (fun x => key x = c'))
        = cs.map (fun c' =>
            (l.filter (fun x => !(decide (key x = c)))).filter
              (fun x => key x = c')) :=
      List.map_congr_left hstep
    rw [hmapeq]
    have hcov2 : ∀ x ∈ l.filter (fun x => !(decide (key x = c))),
        key x ∈ cs := by
      intro x hx
      rcases List.mem_filter.mp hx with ⟨hxl, hxc⟩
      have : key x ≠ c := by simpa using hxc
      rcases List.mem_cons.mp (hcov x hxl) with h | h
      · exact absurd h this
      · exact h
    calc l.filter (fun x => key x = c)
          ++ ((cs.map (fun c' =>
            (l.filter (fun x => !(decide (key x = c)))).filter
              (fun x => key x = c'))).flatten)
        ~ l.filter (fun x => key x = c)
          ++ l.filter (fun x => !(decide (key x = c))) :=
          List.Perm.append_left _
            (ih (l.filter (fun x => !(decide (key x = c)))) hcs hcov2)
      _ ~ l := List.filter_append_perm _ l

/-- The per-class (train, test) parts each permute the class indices. -/
lemma classParts_perm (y : List ℚ) (test_size : ℚ) (seed : ℕ) :
    List.Forall₂ (· ~ ·)
      ((classParts y test_size seed).map (fun p => p.1 ++ p.2))
      (y.dedup.map (fun c =>
        (List.range y.length).filter (fun i => y.getD i 0 = c))) := by
  unfold classParts
  rw [List.map_map, List.forall₂_map_right_iff, List.forall₂_map_left_iff]
  refine List.forall₂_same.mpr ?_
  intro c _
  simp only [Function.comp_apply]
  calc (classShuffled y seed c).drop (classTestCount y test_size c)
        ++ (classShuffled y seed c).take (classTestCount y test_size c)
      ~ (classShuffled y seed c).take (classTestCount y test_size c)
        ++ (classShuffled y seed c).drop (classTestCount y test_size c) :=
        List.perm_append_comm
    _ = classShuffled y seed c := List.take_append_drop _ _
    _ ~ (List.range y.length).filter (fun i => y.getD i 0 = c) :=
        List.rotate_perm _ _

/-- The two halves of `splitIndices` together permute `range n`. -/
lemma splitIndices_append_perm (y : List ℚ) (test_size : ℚ) (seed : ℕ) :
    ((splitIndices y test_size seed).1
      ++ (splitIndices y test_size seed).2).Perm
      (List.range y.length) := by
  unfold splitIndices
  calc ((classParts y test_size seed).map Prod.fst).flatten
        ++ ((classParts y test_size seed).map Prod.snd).flatten
      ~ ((classParts y test_size seed).map (fun p => p.1 ++ p.2)).flatten :=
        flatten_fst_append_flatten_snd_perm _
    _ ~ ((y.dedup.map (fun c =>
          (List.range y.length).filter (fun i => y.getD i 0 = c))).flatten) :=
        flatten_perm_of_forall₂ (classParts_perm y test_size seed)
    _ ~ List.range y.length := by
        refine flatten_filter_classes_perm (fun i => y.getD i 0) y.dedup
          (List.range y.length) (List.nodup_dedup y) ?_
        intro i hi
        have hlt : i < y.length := List.mem_range.mp hi
        show y.getD i 0 ∈ y.dedup
        rw [List.getD_eq_getElem y 0 hlt]
        exact List.mem_dedup.mpr (List.getElem_mem hlt)

/-- C3: the train/test split is a partition of the input rows: the train and
test index lists together are a permutation of `range n` (so the sizes sum
to the row count and no row index appears in both subsets), and the label
vectors are gathered from exactly the same index lists as the feature
subsets. -/
theorem C3_train_test_split_is_partition (X : List (List ℚ)) (y : List ℚ)
    (test_size : ℚ) (seed : ℕ) (hX : X.length = y.length) :
    ((splitIndices y test_size seed).1
        ++ (splitIndices y test_size seed).2).Perm (List.range y.length)
    ∧ (train_test_split X y test_size seed).1.length
        + (train_test_split X y test_size seed).2.1.length = X.length
    ∧ (splitIndices y test_size seed).1.Disjoint
        (splitIndices y test_size seed).2
    ∧ (train_test_split X y test_size seed).2.2.1
        = (splitIndices y test_size seed).1.map (fun i => y.getD i 0)
    ∧ (train_test_split X y test_size seed).2.2.2
        = (splitIndices y test_size seed).2.map (fun i => y.getD i 0) := by
  have hperm := splitIndices_append_perm y test_size seed
  refine ⟨hperm, ?_, ?_, rfl, rfl⟩
  · have hlen := hperm.length_eq
    rw [List.length_append, List.length_range] at hlen
    show ((splitIndices y test_size seed).1.map (fun i => X.getD i [])).length
        + ((splitIndices y test_size seed).2.map
            (fun i => X.getD i [])).length = X.length
    rw [List.length_map, List.length_map, hlen, hX]
  · have hnd : ((splitIndices y test_size seed).1
        ++ (splitIndices y test_size seed).2).Nodup :=
      hperm.nodup_iff.mpr (List.nodup_range y.length)
    exact (List.nodup_append.mp hnd).2.2

/-- Witness for C3 at `X = [[1],[2],[3],[4]]`, `y = [0,0,1,1]`, `test_size =
1/4`, `seed = 42`. -/
theorem C3_train_test_split_is_partition_witness :
    ((splitIndices [0, 0, 1, 1] (1/4) 42).1
        ++ (splitIndices [0, 0, 1, 1] (1/4) 42).2).Perm
        (List.range ([0, 0, 1, 1] : List ℚ).length)
    ∧ (train_test_split [[1], [2], [3], [4]] [0, 0, 1, 1] (1/4) 42).1.length
        + (train_test_split [[1], [2], [3], [4]] [0, 0, 1, 1]
            (1/4) 42).2.1.length = ([[1], [2], [3], [4]] : List (List ℚ)).length
    ∧ (splitIndices [0, 0, 1, 1] (1/4) 42).1.Disjoint
        (splitIndices [0, 0, 1, 1] (1/4) 42).2
    ∧ (train_test_split [[1], [2], [3], [4]] [0, 0, 1, 1] (1/4) 42).2.2.1
        = (splitIndices [0, 0, 1, 1] (1/4) 42).1.map
            (fun i => ([0, 0, 1, 1] : List ℚ).getD i 0)
    ∧ (train_test_split [[1], [2], [3], [4]] [0, 0, 1, 1] (1/4) 42).2.2.2
        = (splitIndices [0, 0, 1, 1] (1/4) 42).2.map
            (fun i => ([0, 0, 1, 1] : List ℚ).getD i 0) :=
  C3_train_test_split_is_partition [[1], [2], [3], [4]] [0, 0, 1, 1]
    (1/4) 42 rfl

/-- C2: on the column `[1, 2, 3, 4, 100]` with threshold `1.5`, the code
computes `Q1 = 2`, `Q3 = 4`, `IQR = 2`, upper bound `7`, and maps `100` to
`7` while leaving `1, 2, 3, 4` unchanged. -/
theorem C2_example_column_caps_100_to_7 :
    quantile [1, 2, 3, 4, 100] (1/4) = 2
    ∧ quantile [1, 2, 3, 4, 100] (3/4) = 4
    ∧ quantile [1, 2, 3, 4, 100] (3/4) - quantile [1, 2, 3, 4, 100] (1/4) = 2
    ∧ quantile [1, 2, 3, 4, 100] (3/4)
        + (3/2) * (quantile [1, 2, 3, 4, 100] (3/4)
            - quantile [1, 2, 3, 4, 100] (1/4)) = 7
    ∧ handle_outliers [("x", [1, 2, 3, 4, 100])] ["x"] "iqr" (3/2)
        = [("x", [1, 2, 3, 4, 7])] := by
  have h1 : quantile [1, 2, 3, 4, 100] (1/4) = 2 := by
    norm_num [quantile, interp, List.insertionSort, List.orderedInsert,
      Int.toNat]
  have h3 : quantile [1, 2, 3, 4, 100] (3/4) = 4 := by
    norm_num [quantile, interp, List.insertionSort, List.orderedInsert,
      Int.toNat]
  have hc : capColumn [1, 2, 3, 4, 100] (3/2) = [1, 2, 3, 4, 7] := by
    rw [capColumn, h1, h3]
    norm_num
  refine ⟨h1, h3, by rw [h1, h3]; norm_num, by rw [h1, h3]; norm_num, ?_⟩
  simp [handle_outliers, hc]

/-- C5: the splitter is deterministic given the same seed, and so is the whole
of `preprocess_data`: equal seeds give equal outputs. -/
theorem C5_split_deterministic_given_seed (X : List (List ℚ)) (y : List ℚ)
    (test_size : ℚ) (s₁ s₂ : ℕ) (h : s₁ = s₂) :
    train_test_split X y test_size s₁ = train_test_split X y test_size s₂
    ∧ ∀ (data : Dataset) (target_col : String),
        preprocess_data data target_col test_size s₁
          = preprocess_data data target_col test_size s₂ := by
  subst h
  exact ⟨rfl, fun _ _ => rfl⟩

/-- Witness for C5 with seed 42 on both runs. -/
theorem C5_split_deterministic_given_seed_witness :
    train_test_split [[1], [2]] [0, 1] (1/5) 42
        = train_test_split [[1], [2]] [0, 1] (1/5) 42
    ∧ ∀ (data : Dataset) (target_col : String),
        preprocess_data data target_col (1/5) 42
          = preprocess_data data target_col (1/5) 42 :=
  C5_split_deterministic_given_seed [[1], [2]] [0, 1] (1/5) 42 42 rfl

/-- C7: `load_data` returns the parsed dataset exactly when the read succeeds
and re-raises the underlying error exactly when it fails: it is the
identity on the single read attempt's outcome (no swallowing, no retry
— the body performs exactly one read). -/
theorem C7_load_data_propagates_read_outcome
    (read_csv : String → Except String Dataset) (filepath : String) :
    (∀ d, load_data read_csv filepath = Except.ok d
        ↔ read_csv filepath = Except.ok d)
    ∧ (∀ e, load_data read_csv filepath = Except.error e
        ↔ read_csv filepath = Except.error e)
    ∧ load_data read_csv filepath = read_csv filepath := by
  have hid : load_data read_csv filepath = read_csv filepath := by
    unfold load_data
    cases read_csv filepath with
    | ok d => rfl
    | error e => rfl
  exact ⟨fun d => by rw [hid], fun e => by rw [hid], hid⟩

/-- Witness for C7 on concrete readers, one succeeding and one failing. -/
theorem C7_load_data_propagates_read_outcome_witness :
    load_data (fun _ => Except.ok [("default", [0])]) "data/raw/Loan_Data.csv"
        = Except.ok [("default", [0])]
    ∧ load_data (fun _ => Except.error "FileNotFoundError")
        "data/raw/Loan_Data.csv" = Except.error "FileNotFoundError" := by
  refine ⟨?_, ?_⟩
  · exact (C7_load_data_propagates_read_outcome
      (fun _ => Except.ok [("default", [0])]) "data/raw/Loan_Data.csv").2.2
  · exact (C7_load_data_propagates_read_outcome
      (fun _ => Except.error "FileNotFoundError") "data/raw/Loan_Data.csv").2.2

/-- C8: `transform` on an unfitted scaler is rejected with an error for every
input matrix, while `transform` after `fit` succeeds and returns the
standardized matrix. -/
theorem C8_transform_before_fit_rejected (m : List (List ℚ)) :
    StandardScaler.transform ⟨none⟩ m = Except.error "NotFittedError"
    ∧ (¬ ∃ out, StandardScaler.transform ⟨none⟩ m = Except.ok out)
    ∧ ∀ train : List (List ℚ),
        StandardScaler.transform (StandardScaler.fit train) m
          = Except.ok (scaleWith (fitMeans train) (fitVars train) m,
              StandardScaler.fit train) := by
  refine ⟨rfl, ?_, fun _ => rfl⟩
  rintro ⟨out, hout⟩
  exact absurd hout (by simp [StandardScaler.transform])

lemma getD_map_lt {α β : Type} (f : α → β) (l : List α) (i : ℕ) (d : β)
    (d' : α) (h : i < l.length) : (l.map f).getD i d = f (l.getD i d') := by
  rw [List.getD_eq_getElem _ _ (by simpa using h),
    List.getD_eq_getElem _ _ h, List.getElem_map]

lemma getD_range_map {β : Type} (g : ℕ → β) (w j : ℕ) (d : β)
    (h : j < w) : ((List.range w).map g).getD j d = g j := by
  rw [getD_map_lt g (List.range w) j d 0 (by simpa using h)]
  congr 1
  rw [List.getD_eq_getElem _ _ (by simpa using h)]
  exact List.getElem_range _ _

/-- C4: the scaler returned by `preprocess_data` is exactly the one fitted on
the training subset; `transform` on the fitted scaler returns the
standardized matrix together with the unchanged fitted state — so the
state after transforming the test set equals the state right after fitting
on the training set — and the test output of `preprocess_data` is
elementwise `(x - train_mean) / train_std`. -/
theorem C4_scaler_fitted_on_train_only (data : Dataset)
    (target_col : String) (test_size : ℚ) (random_state : ℕ)
    (m : List (List ℚ)) :
    (preprocess_data data target_col test_size random_state).2.2.2.2
        = StandardScaler.fit
            (trainRows data target_col test_size random_state)
    ∧ (StandardScaler.fit
          (trainRows data target_col test_size random_state)).transform m
        = Except.ok
            (scaleWith
              (fitMeans (trainRows data target_col test_size random_state))
              (fitVars (trainRows data target_col test_size random_state)) m,
             StandardScaler.fit
               (trainRows data target_col test_size random_state))
    ∧ (preprocess_data data target_col test_size random_state).2.1
        = scaleWith
            (fitMeans (trainRows data target_col test_size random_state))
            (fitVars (trainRows data target_col test_size random_state))
            (testRows data target_col test_size random_state)
    ∧ ∀ i j, i < (testRows data target_col test_size random_state).length →
        j < (fitMeans (trainRows data target_col test_size
            random_state)).length →
        (((preprocess_data data target_col test_size
            random_state).2.1.getD i []).getD j 0)
          = (((((testRows data target_col test_size
                random_state).getD i []).getD j 0 : ℚ) : ℝ)
              - (((fitMeans (trainRows data target_col test_size
                  random_state)).getD j 0 : ℚ) : ℝ))
            / Real.sqrt (((fitVars (trainRows data target_col test_size
                random_state)).getD j 0 : ℚ) : ℝ) := by
  refine ⟨rfl, rfl, rfl, ?_⟩
  intro i j hi hj
  show ((scaleWith
      (fitMeans (trainRows data target_col test_size random_state))
      (fitVars (trainRows data target_col test_size random_state))
      (testRows data target_col test_size random_state)).getD i []).getD j 0
      = _
  unfold scaleWith
  rw [getD_map_lt _ _ i _ [] hi]
  rw [getD_range_map _ _ j _ hj]

/-- Witness for C4 on a concrete one-column dataset. -/
theorem C4_scaler_fitted_on_train_only_witness :
    (preprocess_data [("default", [0, 0]), ("f", [1, 3])] "default"
        0 0).2.2.2.2
        = StandardScaler.fit
            (trainRows [("default", [0, 0]), ("f", [1, 3])] "default" 0 0)
    ∧ (StandardScaler.fit
          (trainRows [("default", [0, 0]), ("f", [1, 3])] "default"
            0 0)).transform [[2]]
        = Except.ok
            (scaleWith
              (fitMeans (trainRows [("default", [0, 0]), ("f", [1, 3])]
                "default" 0 0))
              (fitVars (trainRows [("default", [0, 0]), ("f", [1, 3])]
                "default" 0 0)) [[2]],
             StandardScaler.fit
               (trainRows [("default", [0, 0]), ("f", [1, 3])] "default" 0 0))
    ∧ (preprocess_data [("default", [0, 0]), ("f", [1, 3])] "default"
        0 0).2.1
        = scaleWith
            (fitMeans (trainRows [("default", [0, 0]), ("f", [1, 3])]
              "default" 0 0))
            (fitVars (trainRows [("default", [0, 0]), ("f", [1, 3])]
              "default" 0 0))
            (testRows [("default", [0, 0]), ("f", [1, 3])] "default" 0 0)
    ∧ ∀ i j, i < (testRows [("default", [0, 0]), ("f", [1, 3])] "default"
          0 0).length →
        j < (fitMeans (trainRows [("default", [0, 0]), ("f", [1, 3])]
            "default" 0 0)).length →
        (((preprocess_data [("default", [0, 0]), ("f", [1, 3])] "default"
            0 0).2.1.getD i []).getD j 0)
          = (((((testRows [("default", [0, 0]), ("f", [1, 3])] "default"
                0 0).getD i []).getD j 0 : ℚ) : ℝ)
              - (((fitMeans (trainRows [("default", [0, 0]), ("f", [1, 3])]
                  "default" 0 0)).getD j 0 : ℚ) : ℝ))
            / Real.sqrt (((fitVars (trainRows [("default", [0, 0]),
                ("f", [1, 3])] "default" 0 0)).getD j 0 : ℚ) : ℝ) :=
  C4_scaler_fitted_on_train_only [("default", [0, 0]), ("f", [1, 3])]
    "default" 0 0 [[2]]

lemma sum_map_div_sub (d : List ℝ) (a s : ℝ) :
    (d.map (fun x => (x - a) / s)).sum
      = (d.sum - (d.length : ℝ) * a) / s := by
  induction d with
  | nil => simp
  | cons x t ih =>
    simp only [List.map_cons, List.sum_cons, List.length_cons, ih]
    rw [div_add_div_same]
    congr 1
    push_cast
    ring

lemma sum_map_div_sub_sq (d : List ℝ) (a s : ℝ) :
    (d.map (fun x => ((x - a) / s) ^ 2)).sum
      = (d.map (fun x => (x - a) ^ 2)).sum / s ^ 2 := by
  induction d with
  | nil => simp
  | cons x t ih =>
    simp only [List.map_cons, List.sum_cons, ih]
    rw [div_pow, div_add_div_same]

lemma rMean_standardized (d : List ℝ) (s : ℝ) (hd : d.length ≠ 0) :
    rMean (d.map (fun x => (x - rMean d) / s)) = 0 := by
  have hlen : ((d.length : ℕ) : ℝ) ≠ 0 := Nat.cast_ne_zero.mpr hd
  unfold rMean
  rw [List.length_map, sum_map_div_sub]
  rw [show d.sum - (d.length : ℝ) * (d.sum / (d.length : ℝ)) = 0 by
    field_simp]
  simp

lemma rVar_nonneg (d : List ℝ) : 0 ≤ rVar d := by
  unfold rVar
  refine div_nonneg (List.sum_nonneg ?_) (Nat.cast_nonneg _)
  intro x hx
  rcases List.mem_map.mp hx with ⟨u, _, rfl⟩
  exact sq_nonneg _

lemma rVar_standardized (d : List ℝ) {s : ℝ} (hd : d.length ≠ 0)
    (hs : s ≠ 0) (hsq : s ^ 2 = rVar d) :
    rVar (d.map (fun x => (x - rMean d) / s)) = 1 := by
  have hlen : ((d.length : ℕ) : ℝ) ≠ 0 := Nat.cast_ne_zero.mpr hd
  have hm := rMean_standardized d s hd
  unfold rVar
  rw [hm, List.length_map]
  simp only [sub_zero, List.map_map]
  have hcomp : ((fun x : ℝ => x ^ 2) ∘ fun x => (x - rMean d) / s)
      = fun x => ((x - rMean d) / s) ^ 2 := rfl
  rw [hcomp, sum_map_div_sub_sq d (rMean d) s, hsq]
  have hS : rVar d = ((d.map (fun x => (x - rMean d) ^ 2)).sum)
      / (d.length : ℝ) := rfl
  have hv_ne : rVar d ≠ 0 := by
    rw [← hsq]
    exact pow_ne_zero 2 hs
  have hsum_ne : (d.map (fun x => (x - rMean d) ^ 2)).sum ≠ 0 := by
    intro h
    apply hv_ne
    rw [hS, h, zero_div]
  rw [hS]
  field_simp

lemma cast_listSum (c : List ℚ) :
    ((c.sum : ℚ) : ℝ) = (c.map (fun x : ℚ => (x : ℝ))).sum := by
  induction c with
  | nil => simp
  | cons x t ih => simp [ih]

lemma cast_listMean (c : List ℚ) :
    ((listMean c : ℚ) : ℝ) = rMean (c.map (fun x : ℚ => (x : ℝ))) := by
  unfold listMean rMean
  rw [List.length_map, ← cast_listSum]
  push_cast
  ring

lemma cast_listVar (c : List ℚ) :
    ((listVar c : ℚ) : ℝ) = rVar (c.map (fun x : ℚ => (x : ℝ))) := by
  unfold listVar rVar
  rw [List.length_map, List.map_map]
  push_cast [cast_listSum]
  congr 1
  rw [List.map_map]
  apply congrArg List.sum
  apply List.map_congr_left
  intro x _
  simp only [Function.comp_apply]
  push_cast
  rw [cast_listMean]

/-- Standardizing a rational column by its own mean and the square root of its
own (nonzero) variance yields zero mean and unit variance. -/
lemma standardize_column (c : List ℚ) (hv : listVar c ≠ 0) :
    rMean (c.map (fun x => (((x : ℚ) : ℝ) - ((listMean c : ℚ) : ℝ))
        / Real.sqrt ((listVar c : ℚ) : ℝ))) = 0
    ∧ rVar (c.map (fun x => (((x : ℚ) : ℝ) - ((listMean c : ℚ) : ℝ))
        / Real.sqrt ((listVar c : ℚ) : ℝ))) = 1 := by
  have hc_ne : c.length ≠ 0 := by
    intro h
    apply hv
    have hnil : c = [] := List.length_eq_zero.mp h
    simp [hnil, listVar]
  have hd_len : (c.map (fun x : ℚ => (x : ℝ))).length = c.length :=
    List.length_map _ _
  have hd_ne : (c.map (fun x : ℚ => (x : ℝ))).length ≠ 0 := by
    rw [hd_len]; exact hc_ne
  have hvr : rVar (c.map (fun x : ℚ => (x : ℝ)))
      = ((listVar c : ℚ) : ℝ) := (cast_listVar c).symm
  have hvr_ne : rVar (c.map (fun x : ℚ => (x : ℝ))) ≠ 0 := by
    rw [hvr]
    exact_mod_cast hv
  have hvr_pos : 0 < rVar (c.map (fun x : ℚ => (x : ℝ))) :=
    lt_of_le_of_ne (rVar_nonneg _) (Ne.symm hvr_ne)
  have hs_ne : Real.sqrt (rVar (c.map (fun x : ℚ => (x : ℝ)))) ≠ 0 :=
    Real.sqrt_ne_zero'.mpr hvr_pos
  have hs_sq : (Real.sqrt (rVar (c.map (fun x : ℚ => (x : ℝ))))) ^ 2
      = rVar (c.map (fun x : ℚ => (x : ℝ))) := Real.sq_sqrt hvr_pos.le
  have hmap : c.map (fun x => (((x : ℚ) : ℝ) - ((listMean c : ℚ) : ℝ))
        / Real.sqrt ((listVar c : ℚ) : ℝ))
      = (c.map (fun x : ℚ => (x : ℝ))).map
          (fun x => (x - rMean (c.map (fun x : ℚ => (x : ℝ))))
            / Real.sqrt (rVar (c.map (fun x : ℚ => (x : ℝ))))) := by
    rw [List.map_map]
    apply List.map_congr_left
    intro x _
    simp only [Function.comp_apply]
    rw [cast_listMean, cast_listVar]
  rw [hmap]
  exact ⟨rMean_standardized _ _ hd_ne,
    rVar_standardized _ hd_ne hs_ne hs_sq⟩

lemma fitMeans_length (m : List (List ℚ)) :
    (fitMeans m).length = nFeatures m := by
  simp [fitMeans]

lemma fitMeans_getD (m : List (List ℚ)) (j : ℕ) (hj : j < nFeatures m) :
    (fitMeans m).getD j 0 = listMean (matColumn m j) :=
  getD_range_map _ _ j 0 hj

lemma fitVars_getD (m : List (List ℚ)) (j : ℕ) (hj : j < nFeatures m) :
    (fitVars m).getD j 0 = listVar (matColumn m j) :=
  getD_range_map _ _ j 0 hj

/-- Column `j` of the standardized matrix is the standardization of column `j`
of the input. -/
lemma rMatColumn_scaleWith (mean_ var_ : List ℚ) (m : List (List ℚ))
    (j : ℕ) (hj : j < mean_.length) :
    rMatColumn (scaleWith mean_ var_ m) j
      = (matColumn m j).map (fun x =>
          (((x : ℚ) : ℝ) - ((mean_.getD j 0 : ℚ) : ℝ))
            / Real.sqrt ((var_.getD j 0 : ℚ) : ℝ)) := by
  unfold rMatColumn scaleWith matColumn
  rw [List.map_map, List.map_map]
  apply List.map_congr_left
  intro r _
  simp only [Function.comp_apply]
  exact getD_range_map _ _ j _ hj

/-- C6: every feature column of the scaled training matrix produced by
`preprocess_data` has exactly zero mean and unit variance, provided that
column of the training subset has nonzero variance (equivalently nonzero
standard deviation). -/
theorem C6_scaled_train_zero_mean_unit_variance (data : Dataset)
    (target_col : String) (test_size : ℚ) (random_state : ℕ) (j : ℕ)
    (hj : j < nFeatures (trainRows data target_col test_size random_state))
    (hv : listVar (matColumn
        (trainRows data target_col test_size random_state) j) ≠ 0) :
    rMean (rMatColumn
        (preprocess_data data target_col test_size random_state).1 j) = 0
    ∧ rVar (rMatColumn
        (preprocess_data data target_col test_size random_state).1 j) = 1 := by
  have h1 : (preprocess_data data target_col test_size random_state).1
      = scaleWith
          (fitMeans (trainRows data target_col test_size random_state))
          (fitVars (trainRows data target_col test_size random_state))
          (trainRows data target_col test_size random_state) := rfl
  rw [h1, rMatColumn_scaleWith _ _ _ j (by rw [fitMeans_length]; exact hj)]
  rw [fitMeans_getD _ _ hj, fitVars_getD _ _ hj]
  exact standardize_column _ hv

/-- Witness for C6 on the dataset with label column `[0, 0]` and one feature
column `[1, 3]` (training variance 1). -/
theorem C6_scaled_train_zero_mean_unit_variance_witness :
    rMean (rMatColumn
        (preprocess_data [("default", [0, 0]), ("f", [1, 3])] "default"
          0 0).1 0) = 0
    ∧ rVar (rMatColumn
        (preprocess_data [("default", [0, 0]), ("f", [1, 3])] "default"
          0 0).1 0) = 1 := by
  have htv : targetVec [("default", [0, 0]), ("f", [1, 3])] "default"
      = [0, 0] := by
    norm_num [targetVec, lookupCol, List.find?]
  have hfc : featureCols [("default", [0, 0]), ("f", [1, 3])] "default"
      = [("f", [1, 3])] := by decide
  have hcap : capColumn [1, 3] (3/2) = [1, 3] := by
    have h1 : quantile [1, 3] (1/4) = 3/2 := by
      norm_num [quantile, interp, List.insertionSort, List.orderedInsert,
        Int.toNat]
    have h3 : quantile [1, 3] (3/4) = 5/2 := by
      norm_num [quantile, interp, List.insertionSort, List.orderedInsert,
        Int.toNat]
    rw [capColumn, h1, h3]
    norm_num
  have hcc : cappedCols [("default", [0, 0]), ("f", [1, 3])] "default"
      = [("f", [1, 3])] := by
    rw [cappedCols, hfc]
    simp [handle_outliers, hcap]
  have hfr : featureRows [("default", [0, 0]), ("f", [1, 3])] "default"
      = [[1], [3]] := by
    rw [featureRows, hcc, htv]
    norm_num [List.range_succ]
  have hsi : splitIndices [0, 0] 0 0 = ([0, 1], []) := by
    norm_num [splitIndices, classParts, classShuffled, classTestCount,
      classIdx, List.dedup_cons_of_mem, List.dedup_cons_of_not_mem,
      List.range_succ, List.filter, List.rotate]
  have hT : trainRows [("default", [0, 0]), ("f", [1, 3])] "default" 0 0
      = [[1], [3]] := by
    rw [trainRows, train_test_split, hfr, htv, hsi]
    norm_num
  refine C6_scaled_train_zero_mean_unit_variance
    [("default", [0, 0]), ("f", [1, 3])] "default" 0 0 0 ?_ ?_
  · rw [hT]
    norm_num [nFeatures]
  · rw [hT]
    norm_num [matColumn, listVar, listMean]

/-- Witness for C9 at a concrete two-column dataset, one column listed. -/
theorem C9_handle_outliers_preserves_unlisted_columns_witness :
    List.Forall₂
      (fun p q : String × Col => p.1 = q.1 ∧ (p.1 ∉ ["x"] → p = q))
      [("x", [1, 2, 3, 4, 100]), ("y", [5, 6, 7, 8, 9])]
      (handle_outliers [("x", [1, 2, 3, 4, 100]), ("y", [5, 6, 7, 8, 9])]
        ["x"] "iqr" (3/2)) :=
  C9_handle_outliers_preserves_unlisted_columns
    [("x", [1, 2, 3, 4, 100]), ("y", [5, 6, 7, 8, 9])] ["x"] "iqr" (3/2)
